import Mathlib

/-!
Verification development for the prometheus-kafka-consumer-group-exporter
source (a single Python module).  The Python code is shallowly embedded:

* Python byte strings are `List Nat` (each element a byte value);
* Python text strings that originate on the wire are modelled by their
  UTF-8 byte sequences (`PyStr`), so the `decode` step of `read_string`
  is the identity (failure of UTF-8 decoding is not modelled: no claim
  depends on it);
* raising code is modelled with `Except PyErr`;
* Python dicts are modelled as insertion-ordered association lists.
-/

deriving instance DecidableEq for Except

namespace Exporter

/-- Exception values of the modelled Python runtime. -/
inductive PyErr
  | structError
  | typeError
  | valueError
  | indexError
deriving DecidableEq, Repr

/-- Python strings are modelled by their UTF-8 byte sequences. -/
abbrev PyStr := List Nat

/-- Python slice `l[:n]` semantics, including negative indices. -/
def pyTake (n : Int) (l : List Nat) : List Nat :=
  if 0 ≤ n then l.take n.toNat else l.take (l.length - (-n).toNat)

/-- Python slice `l[n:]` semantics, including negative indices. -/
def pyDrop (n : Int) (l : List Nat) : List Nat :=
  if 0 ≤ n then l.drop n.toNat else l.drop (l.length - (-n).toNat)

/-- Big-endian unsigned value of a byte list (bytes assumed < 256). -/
def beVal (bs : List Nat) : Nat := bs.foldl (fun acc b => acc * 256 + b) 0

/-- Signed (two-complement) reading of a `w`-byte big-endian unsigned value. -/
def signedOf (w : Nat) (m : Nat) : Int :=
  if m < 2 ^ (8 * w - 1) then (m : Int) else (m : Int) - 2 ^ (8 * w)

/-- Model of `struct.unpack_from` of a `w`-byte big-endian signed integer
followed by `bytes[w:]`: requires at least `w` bytes (`struct.error`
otherwise), consumes exactly `w`. -/
def readBE (w : Nat) (bs : List Nat) : Except PyErr (Int × List Nat) :=
  if bs.length < w then .error .structError
  else .ok (signedOf w (beVal (bs.take w)), bs.drop w)

/-- Source `read_short`: `unpack_from(">h", bytes)` and `bytes[2:]`. -/
def read_short (bs : List Nat) : Except PyErr (Int × List Nat) := readBE 2 bs

/-- Source `read_int`: `unpack_from(">i", bytes)` and `bytes[4:]`. -/
def read_int (bs : List Nat) : Except PyErr (Int × List Nat) := readBE 4 bs

/-- Source `read_long_long`: `unpack_from(">q", bytes)` and `bytes[8:]`. -/
def read_long_long (bs : List Nat) : Except PyErr (Int × List Nat) := readBE 8 bs

/-- Source `read_string`: a 2-byte length then that many bytes (Python
slicing, which never raises, even on short or negative lengths). -/
def read_string (bs : List Nat) : Except PyErr (PyStr × List Nat) := do
  let (length, remaining) ← read_short bs
  .ok (pyTake length remaining, pyDrop length remaining)

/-- Decoded key of a commit-topic message (source `parse_key` result tuple). -/
structure KeyRecord where
  version : Int
  group : PyStr
  topic : PyStr
  partition : Int
deriving DecidableEq, Repr

/-- Decoded value of a commit-topic message (source `parse_value` result
tuple, a 4-tuple for schema version 0 and a 5-tuple for version 1). -/
inductive ValueRecord
  | v0 (offset : Int) (metadata : PyStr) (timestamp : Int)
  | v1 (offset : Int) (metadata : PyStr) (commit_timestamp : Int)
       (expire_timestamp : Int)
deriving DecidableEq, Repr

/-- Source `parse_key`: returns the decoded tuple for schema versions 0 and 1
and falls through to `None` (`ok none`) for any other version. -/
def parse_key (bytes : List Nat) : Except PyErr (Option KeyRecord) := do
  let (version, remaining_key) ← read_short bytes
  if version = 1 ∨ version = 0 then
    let (group, remaining_key) ← read_string remaining_key
    let (topic, remaining_key) ← read_string remaining_key
    let (partition, _) ← read_int remaining_key
    .ok (some ⟨version, group, topic, partition⟩)
  else
    .ok none

/-- Source `parse_value`: schema version 0 reads offset, metadata and one
timestamp; version 1 additionally reads an expire timestamp; any other
version falls through to `None` (`ok none`). -/
def parse_value (bytes : List Nat) : Except PyErr (Option ValueRecord) := do
  let (version, remaining_key) ← read_short bytes
  if version = 0 then
    let (offset, remaining_key) ← read_long_long remaining_key
    let (metadata, remaining_key) ← read_string remaining_key
    let (timestamp, _) ← read_long_long remaining_key
    .ok (some (.v0 offset metadata timestamp))
  else if version = 1 then
    let (offset, remaining_key) ← read_long_long remaining_key
    let (metadata, remaining_key) ← read_string remaining_key
    let (commit_timestamp, remaining_key) ← read_long_long remaining_key
    let (expire_timestamp, _) ← read_long_long remaining_key
    .ok (some (.v1 offset metadata commit_timestamp expire_timestamp))
  else
    .ok none

/-- Big-endian byte list (length `w`) of `m` modulo `256 ^ w`. -/
def beBytes : Nat → Nat → List Nat
  | 0, _ => []
  | w + 1, m => (m / 256 ^ w) % 256 :: beBytes w m

/-- Reference encoder of a `w`-byte big-endian signed integer, following the
encoding rules of the specification (two-complement, big-endian). -/
def encInt (w : Nat) (n : Int) : List Nat := beBytes w (n % (2 ^ (8 * w) : Int)).toNat

/-- Reference encoder of a 2-byte-length-prefixed string, following the
encoding rules of the specification. -/
def encStr (s : PyStr) : List Nat := encInt 2 (s.length : Int) ++ s

/-- Reference (test) encoder for key buffers of schema versions 0 and 1,
following the encoding rules of the specification. -/
def encodeKey (version : Int) (group topic : PyStr) (partition : Int) : List Nat :=
  encInt 2 version ++ encStr group ++ encStr topic ++ encInt 4 partition

/-- Reference (test) encoder for value buffers of schema version 0. -/
def encodeValue0 (offset : Int) (metadata : PyStr) (timestamp : Int) : List Nat :=
  encInt 2 0 ++ encInt 8 offset ++ encStr metadata ++ encInt 8 timestamp

/-- Reference (test) encoder for value buffers of schema version 1. -/
def encodeValue1 (offset : Int) (metadata : PyStr) (commit_timestamp expire_timestamp : Int) :
    List Nat :=
  encInt 2 1 ++ encInt 8 offset ++ encStr metadata ++ encInt 8 commit_timestamp ++
    encInt 8 expire_timestamp

/-- Insertion-ordered association-list lookup (Python `d[k]` / `k in d`). -/
def alistLookup {α β : Type} [DecidableEq α] (k : α) : List (α × β) → Option β
  | [] => none
  | (k2, v) :: rest => if k2 = k then some v else alistLookup k rest

/-- Insertion-ordered association-list update (Python `d[k] = v`): overwrite
in place when the key exists, append at the end otherwise. -/
def alistSet {α β : Type} [DecidableEq α] (k : α) (v : β) : List (α × β) → List (α × β)
  | [] => [(k, v)]
  | (k2, v2) :: rest => if k2 = k then (k2, v) :: rest else (k2, v2) :: alistSet k v rest

/-- A label value handed to the metric store.  prometheus_client stringifies
label values with `str`; the call sites of this program pass Python strings
and ints and never mix the two within one label position, and `str` is
injective on each, so series are keyed by the raw values here. -/
inductive LabelVal
  | vStr (s : PyStr)
  | vInt (n : Int)
deriving DecidableEq, Repr

/-- A prometheus_client `Gauge`: the label names fixed at construction and
the per-label-values child series.  Metric values are modelled as integers:
every value this program stores (offsets, highwater marks, counts) is an
integer, exactly representable in the 64-bit float the library uses. -/
structure GaugeMetric where
  labelnames : List String
  series : List (List LabelVal × Int)
deriving DecidableEq, Repr

/-- A prometheus_client `Counter`, same shape as `GaugeMetric`. -/
structure CounterMetric where
  labelnames : List String
  series : List (List LabelVal × Int)
deriving DecidableEq, Repr

/-- The two module-level metric registries `gauges` and `counters`. -/
structure Store where
  gauges : List (String × GaugeMetric)
  counters : List (String × CounterMetric)
deriving DecidableEq, Repr

def emptyStore : Store := ⟨[], []⟩

/-- Source `update_gauge`.  prometheus_client behaviour modelled at the
interface: `labels(*vals)` raises `ValueError` when the number of values
differs from the registered label names (including the no-label-names case),
and calling `set` directly on a metric that has label names raises.  A raise
is modelled as `Except.error`; the registration that Python performs before
a raising `labels` call is not observable in any claim and is dropped. -/
def update_gauge (store : Store) (metric_name : String)
    (label_dict : List (String × LabelVal)) (value : Int) : Except PyErr Store :=
  let label_keys := label_dict.map Prod.fst
  let label_values := label_dict.map Prod.snd
  let g : GaugeMetric :=
    match alistLookup metric_name store.gauges with
    | some g0 => g0
    | none => ⟨label_keys, []⟩
  if label_values ≠ [] then
    if label_values.length = g.labelnames.length then
      .ok ⟨alistSet metric_name ⟨g.labelnames, alistSet label_values value g.series⟩
             store.gauges, store.counters⟩
    else .error .valueError
  else
    if g.labelnames = [] then
      .ok ⟨alistSet metric_name ⟨g.labelnames, alistSet [] value g.series⟩
             store.gauges, store.counters⟩
    else .error .valueError

/-- Source `increment_counter`; a counter child starts at 0 and `inc()`
adds one. -/
def increment_counter (store : Store) (metric_name : String)
    (label_dict : List (String × LabelVal)) : Except PyErr Store :=
  let label_keys := label_dict.map Prod.fst
  let label_values := label_dict.map Prod.snd
  let c : CounterMetric :=
    match alistLookup metric_name store.counters with
    | some c0 => c0
    | none => ⟨label_keys, []⟩
  if label_values ≠ [] then
    if label_values.length = c.labelnames.length then
      .ok ⟨store.gauges,
           alistSet metric_name
             ⟨c.labelnames,
              alistSet label_values ((alistLookup label_values c.series).getD 0 + 1) c.series⟩
             store.counters⟩
    else .error .valueError
  else
    if c.labelnames = [] then
      .ok ⟨store.gauges,
           alistSet metric_name
             ⟨c.labelnames, alistSet [] ((alistLookup [] c.series).getD 0 + 1) c.series⟩
             store.counters⟩
    else .error .valueError

/-- Current value of a gauge series, as the scrape snapshot would show it. -/
def gaugeValue (store : Store) (metric_name : String) (label_values : List LabelVal) :
    Option Int :=
  match alistLookup metric_name store.gauges with
  | none => none
  | some g => alistLookup label_values g.series

/-- Current value of a counter series, as the scrape snapshot would show it. -/
def counterValue (store : Store) (metric_name : String) (label_values : List LabelVal) :
    Option Int :=
  match alistLookup metric_name store.counters with
  | none => none
  | some c => alistLookup label_values c.series

/-- One message delivered by the consumer; `key` and `value` may be absent. -/
structure Message where
  partition : Int
  offset : Int
  key : Option (List Nat)
  value : Option (List Nat)
deriving DecidableEq, Repr

/-- Python truthiness of an optional byte string (`None` and `b""` are
falsy). -/
def truthyBytes : Option (List Nat) → Bool
  | none => false
  | some bs => decide (bs ≠ [])

/-- Python subscript `value[1]` on the result of `parse_value`: the offset
field of a decoded tuple, and a `TypeError` on `None`. -/
def valueIndex1 : Option ValueRecord → Except PyErr Int
  | none => .error .typeError
  | some (.v0 offset _ _) => .ok offset
  | some (.v1 offset _ _ _) => .ok offset

/-- The body of the consumer loop of `main` for one message: always publish
the exporter read position; when key and value bytes are both truthy, parse
the key, and when the key parsed, parse the value and publish the group
offset gauge and the commit counter.  The source never checks the value
parse result: it subscripts it directly (`valueIndex1`). -/
def process_message (store : Store) (m : Message) : Except PyErr Store := do
  let store ← update_gauge store "kafka_consumer_group_exporter_offset"
    [("partition", .vInt m.partition)] m.offset
  if truthyBytes m.key ∧ truthyBytes m.value then
    let key ← parse_key (m.key.getD [])
    match key with
    | some k => do
      let value ← parse_value (m.value.getD [])
      let offset ← valueIndex1 value
      let store ← update_gauge store "kafka_consumer_group_offset"
        [("group", .vStr k.group), ("topic", .vStr k.topic), ("partition", .vInt k.partition)]
        offset
      increment_counter store "kafka_consumer_group_commits"
        [("group", .vStr k.group), ("topic", .vStr k.topic), ("partition", .vInt k.partition)]
    | none => .ok store
  else
    .ok store

/-- The consumer loop over a finite message sequence.  An exception raised
while processing a message propagates (only `KeyboardInterrupt` is caught in
the source) and aborts the remaining messages. -/
def consume (store : Store) : List Message → Except PyErr Store
  | [] => .ok store
  | m :: rest =>
    match process_message store m with
    | .ok s2 => consume s2 rest
    | .error e => .error e

/-- The module-level Assignment Map `topics`: topic name to
(partition index to leader node id), insertion ordered. -/
abbrev AssignmentMap := List (PyStr × List (Int × Int))

/-- One partition tuple of a metadata response: index 0 is the error code,
index 1 the partition, index 2 the leader (further fields unused). -/
structure MetaPartition where
  error_code : Int
  partition : Int
  leader : Int
deriving DecidableEq, Repr

/-- What sits at a positional index of a metadata topic tuple: a partition
list, the v1 `is_internal` flag, or nothing (index out of range). -/
inductive MetaField
  | parts (ps : List MetaPartition)
  | flag (b : Bool)
  | absent
deriving DecidableEq, Repr

/-- One topic tuple of a metadata response: index 0 is the error code,
index 1 the name; for protocol version 0 index 2 holds the partitions, for
version 1 index 2 is `is_internal` and index 3 holds the partitions. -/
structure MetaTopic where
  error_code : Int
  name : PyStr
  field2 : MetaField
  field3 : MetaField
deriving DecidableEq, Repr

structure MetadataResponse where
  topics : List MetaTopic
deriving DecidableEq, Repr

/-- Python dict built from a key-value sequence (later duplicates overwrite,
position of first insertion kept), as a dict comprehension does. -/
def dictOf {α β : Type} [DecidableEq α] (l : List (α × β)) : List (α × β) :=
  l.foldl (fun d kv => alistSet kv.1 kv.2 d) []

/-- Iterating a tuple field as a partition list; a `TypeError` when the field
holds something else (as Python iteration over a bool or missing index). -/
def fieldPartitions : MetaField → Except PyErr (List MetaPartition)
  | .parts ps => .ok ps
  | _ => .error .typeError

/-- Source `update_topics`: wholesale rebuild of the Assignment Map from a
metadata response, selecting the tuple layout by the negotiated api version;
any other version leaves the map untouched.  Error codes are not checked. -/
def update_topics (api_version : Int) (metadata : MetadataResponse)
    (topics : AssignmentMap) : Except PyErr AssignmentMap :=
  if api_version = 0 then do
    let entries ← metadata.topics.mapM (fun t => do
      let ps ← fieldPartitions t.field2
      .ok (t.name, dictOf (ps.map fun p => (p.partition, p.leader))))
    .ok (dictOf entries)
  else if api_version = 1 then do
    let entries ← metadata.topics.mapM (fun t => do
      let ps ← fieldPartitions t.field3
      .ok (t.name, dictOf (ps.map fun p => (p.partition, p.leader))))
    .ok (dictOf entries)
  else
    .ok topics

/-- The module-level Highwater Table `highwater`: topic name to
(partition index to latest offset). -/
abbrev HWTable := List (PyStr × List (Int × Int))

/-- One partition tuple of an offset response:
`(partition, error_code, offsets)`. -/
structure OffsetPartition where
  partition : Int
  error_code : Int
  offsets : List Int
deriving DecidableEq, Repr

/-- An offset (ListOffsets) response: topic name with partition tuples. -/
structure OffsetResponse where
  topics : List (PyStr × List OffsetPartition)
deriving DecidableEq, Repr

/-- Python `highwater[topic][partition] = offset` once the topic key exists. -/
def hwSet (hw : HWTable) (topic : PyStr) (partition offset : Int) : HWTable :=
  alistSet topic (alistSet partition offset ((alistLookup topic hw).getD [])) hw

def hwLookup (hw : HWTable) (topic : PyStr) (partition : Int) : Option Int :=
  (alistLookup topic hw).bind (alistLookup partition)

/-- Inner loop of source `update_highwater` over the partition tuples of one
topic: `offsets[0]` raises `IndexError` on an empty list; otherwise the
Highwater Table entry is overwritten and the highwater gauge published.  The
per-partition error code is never read. -/
def update_highwater_parts (hw : HWTable) (store : Store) (topic : PyStr) :
    List OffsetPartition → Except PyErr (HWTable × Store)
  | [] => .ok (hw, store)
  | p :: rest =>
    match p.offsets with
    | [] => .error .indexError
    | o :: _ =>
      match update_gauge store "kafka_consumer_group_highwater"
          [("topic", .vStr topic), ("partition", .vInt p.partition)] o with
      | .error e => .error e
      | .ok store2 => update_highwater_parts (hwSet hw topic p.partition o) store2 topic rest

/-- Outer loop of source `update_highwater` over the topics of a response;
a missing topic key is first bound to an empty dict. -/
def update_highwater_topics (hw : HWTable) (store : Store) :
    List (PyStr × List OffsetPartition) → Except PyErr (HWTable × Store)
  | [] => .ok (hw, store)
  | (topic, parts) :: rest =>
    let hw1 := if (alistLookup topic hw).isNone then hw ++ [(topic, [])] else hw
    match update_highwater_parts hw1 store topic parts with
    | .error e => .error e
    | .ok (hw2, s2) => update_highwater_topics hw2 s2 rest

/-- Source `update_highwater` applied to one offset response. -/
def update_highwater (hw : HWTable) (store : Store) (offsets : OffsetResponse) :
    Except PyErr (HWTable × Store) :=
  update_highwater_topics hw store offsets.topics

/-- The same response with every per-partition error code replaced by 0;
used to state that `update_highwater` ignores error codes. -/
def scrubErrorCodes (resp : OffsetResponse) : OffsetResponse :=
  ⟨resp.topics.map fun tp => (tp.1, tp.2.map fun p => ⟨p.partition, 0, p.offsets⟩)⟩

/-- Source `fetch_highwater` grouping, inner topic dict of one leader node:
topic name to the list of its partitions led by that node, appended in
iteration order. -/
def appendPartition (tm : List (PyStr × List Int)) (topic : PyStr) (p : Int) :
    List (PyStr × List Int) :=
  match tm with
  | [] => [(topic, [p])]
  | (t, ps) :: rest =>
    if t = topic then (t, ps ++ [p]) :: rest else (t, ps) :: appendPartition rest topic p

/-- Source `fetch_highwater` grouping, one step of the nested loops: file
partition `p` of `topic`, led by `leader`, into the `nodes` dict. -/
def addPartition (nodes : List (Int × List (PyStr × List Int))) (leader : Int)
    (topic : PyStr) (p : Int) : List (Int × List (PyStr × List Int)) :=
  match nodes with
  | [] => [(leader, [(topic, [p])])]
  | (n, tm) :: rest =>
    if n = leader then (n, appendPartition tm topic p) :: rest
    else (n, tm) :: addPartition rest leader topic p

/-- Source `fetch_highwater` grouping: the `nodes` dict built from the
Assignment Map by the two nested for loops. -/
def buildNodes (topics : AssignmentMap) : List (Int × List (PyStr × List Int)) :=
  topics.foldl
    (fun nodes t => t.2.foldl (fun nodes pl => addPartition nodes pl.2 t.1 pl.1) nodes) []

/-- One OffsetRequest of the source: replica id -1 and, per topic, tuples
`(partition, OffsetResetStrategy.LATEST = -1, max_offsets = 1)`. -/
structure OffsetReq where
  replica_id : Int
  topics : List (PyStr × List (Int × Int × Int))
deriving DecidableEq, Repr

/-- The batched latest-offset requests one `fetch_highwater` cycle sends,
with their destination nodes, in emission order: nothing when the Assignment
Map is empty (falsy), otherwise one request per node and topic of the
grouped `nodes` dict, each naming that single topic. -/
def fetch_highwater_requests (topics : AssignmentMap) : List (Int × OffsetReq) :=
  if topics = [] then []
  else
    (buildNodes topics).flatMap fun nt =>
      nt.2.map fun tps => (nt.1, ⟨-1, [(tps.1, tps.2.map fun p => (p, -1, 1))]⟩)

/-- The (leader, topic, partition) triples of an Assignment Map. -/
def assignTriples (tm : AssignmentMap) : List (Int × PyStr × Int) :=
  tm.flatMap fun tp => tp.2.map fun pl => (pl.2, tp.1, pl.1)

/-- The (node, topic, partition) triples of the topic dict of one node. -/
def topicTriples (n : Int) (tm : List (PyStr × List Int)) : List (Int × PyStr × Int) :=
  tm.flatMap fun tps => tps.2.map fun p => (n, tps.1, p)

/-- The (node, topic, partition) triples of a grouped `nodes` dict. -/
def nodeTriples (nodes : List (Int × List (PyStr × List Int))) : List (Int × PyStr × Int) :=
  nodes.flatMap fun nt => topicTriples nt.1 nt.2

/-- The (node, topic, partition) triples covered by a batch of requests. -/
def reqTriples (rs : List (Int × OffsetReq)) : List (Int × PyStr × Int) :=
  rs.flatMap fun r => r.2.topics.flatMap fun tps => tps.2.map fun pe => (r.1, tps.1, pe.1)

/-- The (destination node, named topics) key of one emitted request. -/
def reqKey (r : Int × OffsetReq) : Int × List PyStr := (r.1, r.2.topics.map Prod.fst)

/-- What the environment does when `fetch_topics` talks to the client:
which protocol era the broker negotiated, which node is least loaded, and
whether the request/response step raises this cycle. -/
structure ClientEnv where
  api_before_0_10 : Bool
  least_loaded_node : Int
  send_raises : Bool
deriving DecidableEq, Repr

/-- Observable actions of one `fetch_topics` cycle. -/
inductive SchedAction
  | sendMetadata (api_version : Nat) (node : Int)
  | logError
  | schedule (time : Int)
deriving DecidableEq, Repr

/-- Source `fetch_topics` for one cycle: `next_time = this_time + 30` is
computed first; the try body selects the api version and sends the metadata
request; `except Exception` logs and swallows any raise; the `finally` block
schedules the next cycle at `next_time` regardless. -/
def fetch_topics_actions (env : ClientEnv) (this_time : Int) : List SchedAction :=
  let next_time := this_time + 30
  let tried : Except Unit (List SchedAction) :=
    if env.send_raises then .error ()
    else .ok [.sendMetadata (if env.api_before_0_10 then 0 else 1) env.least_loaded_node]
  let handled :=
    match tried with
    | .ok as => as
    | .error _ => [.logError]
  handled ++ [.schedule next_time]

/-- The schedule requests among a list of actions, in order. -/
def scheduledTimes (actions : List SchedAction) : List Int :=
  actions.filterMap fun a =>
    match a with
    | .schedule t => some t
    | _ => none

/-- Fire time of the k-th topology refresh cycle under an environment
history: cycle 0 fires at `t0`, and each later cycle fires at the first time
the previous cycle scheduled (none when nothing was scheduled). -/
def topology_fire_time (envs : Nat → ClientEnv) (t0 : Int) : Nat → Option Int
  | 0 => some t0
  | k + 1 =>
    match topology_fire_time envs t0 k with
    | none => none
    | some t => (scheduledTimes (fetch_topics_actions (envs k) t)).head?

/-- Highwater Table lookup applied to the result of `update_highwater`
(none when the call raised). -/
def lookupResultHW (r : Except PyErr (HWTable × Store)) (t : PyStr) (p : Int) : Option Int :=
  match r with
  | .ok (hw, _) => hwLookup hw t p
  | .error _ => none

/-- Gauge snapshot lookup applied to the result of `update_highwater`
(none when the call raised). -/
def lookupResultGauge (r : Except PyErr (HWTable × Store)) (metric_name : String)
    (vals : List LabelVal) : Option Int :=
  match r with
  | .ok (_, s) => gaugeValue s metric_name vals
  | .error _ => none

/-- Well-formedness of a grouped `nodes` dict: distinct node keys, and
distinct topic keys within each node (Python dict keys are unique). -/
def NodesWF (nodes : List (Int × List (PyStr × List Int))) : Prop :=
  (nodes.map Prod.fst).Nodup ∧ ∀ nt ∈ nodes, (nt.2.map Prod.fst).Nodup

/-- A metric name is either unregistered in the gauge registry or was
registered with `n` label names (so a labelled update with `n` values is
accepted). -/
def gaugeArityOk (store : Store) (metric_name : String) (n : Nat) : Bool :=
  match alistLookup metric_name store.gauges with
  | none => true
  | some g => g.labelnames.length == n

/-! Helper lemmas. -/

theorem ok_bind {ε α β : Type} (a : α) (f : α → Except ε β) :
    (Except.ok a >>= f : Except ε β) = f a := rfl

theorem error_bind {ε α β : Type} (e : ε) (f : α → Except ε β) :
    (Except.error e >>= f : Except ε β) = .error e := rfl

theorem alistLookup_set_self {α β : Type} [DecidableEq α] (k : α) (v : β)
    (l : List (α × β)) : alistLookup k (alistSet k v l) = some v := by
  induction l with
  | nil => simp [alistSet, alistLookup]
  | cons kv rest ih =>
    obtain ⟨k2, v2⟩ := kv
    by_cases h : k2 = k
    · simp [alistSet, alistLookup, h]
    · simp [alistSet, alistLookup, h, ih]

theorem length_beBytes (w m : Nat) : (beBytes w m).length = w := by
  induction w generalizing m with
  | zero => rfl
  | succ w ih => simp [beBytes, ih]

theorem foldl_beBytes (w m a : Nat) :
    (beBytes w m).foldl (fun acc b => acc * 256 + b) a = a * 256 ^ w + m % 256 ^ w := by
  induction w generalizing a with
  | zero => simp [beBytes, Nat.mod_one]
  | succ w ih =>
    rw [beBytes, List.foldl_cons, ih, pow_succ, Nat.mod_mul]
    ring

theorem beVal_beBytes (w m : Nat) : beVal (beBytes w m) = m % 256 ^ w := by
  simpa [beVal] using foldl_beBytes w m 0

/-- Decoding a `w`-byte big-endian signed integer from its reference
encoding recovers the integer and leaves the remaining bytes untouched. -/
theorem readBE_encInt (w : Nat) (n : Int) (rest : List Nat) (hw : 0 < w)
    (h1 : -(2 ^ (8 * w - 1) : Int) ≤ n) (h2 : n < 2 ^ (8 * w - 1)) :
    readBE w (encInt w n ++ rest) = .ok (n, rest) := by
  have hM2 : (2 : Int) ^ (8 * w) = 2 ^ (8 * w - 1) * 2 := by
    rw [← pow_succ]
    congr 1
    omega
  have hM0 : (0 : Int) < 2 ^ (8 * w) := by positivity
  have hA0 : (0 : Int) < 2 ^ (8 * w - 1) := by positivity
  have hmod_nonneg : 0 ≤ n % (2 ^ (8 * w) : Int) := Int.emod_nonneg n (ne_of_gt hM0)
  have hmod_lt : n % (2 ^ (8 * w) : Int) < 2 ^ (8 * w) := Int.emod_lt_of_pos n hM0
  set m : Nat := (n % (2 ^ (8 * w) : Int)).toNat with hm
  have hcast : ((m : Int)) = n % 2 ^ (8 * w) := Int.toNat_of_nonneg hmod_nonneg
  have h256 : (256 : Nat) ^ w = 2 ^ (8 * w) := by
    rw [show (256 : Nat) = 2 ^ 8 from rfl, ← pow_mul]
  have hcastM : (((2 : Nat) ^ (8 * w) : Nat) : Int) = (2 : Int) ^ (8 * w) := by push_cast; ring
  have hcastA : (((2 : Nat) ^ (8 * w - 1) : Nat) : Int) = (2 : Int) ^ (8 * w - 1) := by
    push_cast; ring
  have hmlt : m < 2 ^ (8 * w) := by
    have hx : (m : Int) < ((2 ^ (8 * w) : Nat) : Int) := by
      rw [hcastM, hcast]; exact hmod_lt
    exact_mod_cast hx
  have hlen : (beBytes w m).length = w := length_beBytes w m
  have hval : beVal (beBytes w m) = m := by
    rw [beVal_beBytes, h256, Nat.mod_eq_of_lt hmlt]
  have henc : encInt w n = beBytes w m := by rw [encInt]
  rw [henc]
  simp only [readBE]
  rw [if_neg (by simp only [List.length_append, hlen]; omega)]
  rw [List.take_left' hlen, List.drop_left' hlen, hval]
  rcases le_or_lt 0 n with hn | hn
  · have hnA : n < 2 ^ (8 * w) := by
      calc n < 2 ^ (8 * w - 1) := h2
        _ ≤ 2 ^ (8 * w) := by nlinarith
    have hnM : n % (2 ^ (8 * w) : Int) = n := Int.emod_eq_of_lt hn hnA
    have hmn : (m : Int) = n := by rw [hcast, hnM]
    have hmA : m < 2 ^ (8 * w - 1) := by
      have hx : (m : Int) < ((2 ^ (8 * w - 1) : Nat) : Int) := by
        rw [hcastA, hmn]; exact h2
      exact_mod_cast hx
    rw [signedOf, if_pos hmA, hmn]
  · have h0nM : (0 : Int) ≤ n + 2 ^ (8 * w) := by nlinarith
    have hnM2 : n + 2 ^ (8 * w) < 2 ^ (8 * w) := by linarith
    have hshift : (n + 2 ^ (8 * w)) % (2 ^ (8 * w) : Int) = n % 2 ^ (8 * w) := by
      conv_lhs => rw [show n + (2 ^ (8 * w) : Int) = n + 2 ^ (8 * w) * 1 by ring]
      exact Int.add_mul_emod_self_left n (2 ^ (8 * w)) 1
    have hnM : n % (2 ^ (8 * w) : Int) = n + 2 ^ (8 * w) := by
      rw [← hshift, Int.emod_eq_of_lt h0nM hnM2]
    have hmn : (m : Int) = n + 2 ^ (8 * w) := by rw [hcast, hnM]
    have hmA : ¬ m < 2 ^ (8 * w - 1) := by
      intro hcontra
      have hx : (m : Int) < ((2 ^ (8 * w - 1) : Nat) : Int) := by exact_mod_cast hcontra
      rw [hcastA, hmn] at hx
      nlinarith
    rw [signedOf, if_neg hmA, hmn]
    norm_num

/-- Decoding a 2-byte-length-prefixed string from its reference encoding
recovers the string and leaves the remaining bytes untouched. -/
theorem read_string_encStr (s : PyStr) (rest : List Nat) (h : s.length < 2 ^ 15) :
    read_string (encStr s ++ rest) = .ok (s, rest) := by
  have h0 : (0 : Int) ≤ (s.length : Int) := Int.natCast_nonneg s.length
  have h1 : -(2 ^ (8 * 2 - 1) : Int) ≤ (s.length : Int) := by
    have hx : -(2 ^ (8 * 2 - 1) : Int) ≤ 0 := by norm_num
    linarith
  have h2 : (s.length : Int) < 2 ^ (8 * 2 - 1) := by
    have he : 8 * 2 - 1 = 15 := by norm_num
    rw [he]
    exact_mod_cast h
  have hrw : encStr s ++ rest = encInt 2 (s.length : Int) ++ (s ++ rest) := by
    rw [encStr, List.append_assoc]
  simp only [read_string, hrw]
  rw [show read_short = readBE 2 from rfl]
  rw [readBE_encInt 2 (s.length : Int) (s ++ rest) (by norm_num) h1 h2, ok_bind]
  simp only [pyTake, pyDrop, if_pos h0, Int.toNat_natCast]
  rw [List.take_left' rfl, List.drop_left' rfl]

/-! Claim theorems. -/

/-- C1: falsified by the code (code_bug).  For a message whose key bytes
decode but whose value bytes yield `none` (here: value schema version 2),
the consumer loop body is not a silent skip: subscripting the `None` result
of `parse_value` raises a `TypeError`, which aborts the loop and the
remaining messages (a following well-formed message is never folded in). -/
theorem C1_value_decode_none_crashes_loop :
    parse_key (encodeKey 0 [103] [116] 0) = .ok (some ⟨0, [103], [116], 0⟩) ∧
    parse_value [0, 2] = .ok none ∧
    process_message emptyStore ⟨0, 0, some (encodeKey 0 [103] [116] 0), some [0, 2]⟩ =
      .error .typeError ∧
    consume emptyStore
      [⟨0, 0, some (encodeKey 0 [103] [116] 0), some [0, 2]⟩,
       ⟨0, 1, some (encodeKey 0 [103] [116] 0), some (encodeValue0 42 [] 0)⟩] =
      .error .typeError := by
  refine ⟨by decide, by decide, by decide, by decide⟩

/-- C4: for any buffer whose leading 2-byte signed schema version reads as
something outside 0 and 1, both parsers return `None` (`ok none`), not an
exception. -/
theorem C4_unrecognized_version_returns_none (bs rest : List Nat) (v : Int)
    (hread : read_short bs = .ok (v, rest)) (h0 : v ≠ 0) (h1 : v ≠ 1) :
    parse_key bs = .ok none ∧ parse_value bs = .ok none := by
  constructor
  · show (read_short bs >>= fun x => _) = _
    rw [hread, ok_bind]
    simp [h0, h1]
  · show (read_short bs >>= fun x => _) = _
    rw [hread, ok_bind]
    simp [h0, h1]

/-- Witness for C4 at the concrete buffer `[0, 2]` (version 2). -/
theorem C4_witness :
    read_short [0, 2] = .ok (2, []) ∧ (2 : Int) ≠ 0 ∧ (2 : Int) ≠ 1 ∧
    parse_key [0, 2] = .ok none ∧ parse_value [0, 2] = .ok none := by
  refine ⟨by decide, by decide, by decide, ?_⟩
  exact C4_unrecognized_version_returns_none [0, 2] [] 2 (by decide) (by decide) (by decide)

/-- C7: gauges are last-write-wins and counters increment by one: after
setting gauge g (label a = "1") to 5 then to 3 the snapshot shows 3, and
after two increments of counter c (label a = "1") the snapshot shows 2. -/
theorem C7_gauge_last_write_counter_increment :
    (do
      let s1 ← update_gauge emptyStore "g" [("a", .vStr [49])] 5
      let s2 ← update_gauge s1 "g" [("a", .vStr [49])] 3
      let s3 ← increment_counter s2 "c" [("a", .vStr [49])]
      let s4 ← increment_counter s3 "c" [("a", .vStr [49])]
      Except.ok (gaugeValue s4 "g" [.vStr [49]], counterValue s4 "c" [.vStr [49]])
      : Except PyErr (Option Int × Option Int)) = .ok (some 3, some 2) := by
  decide

/-- C10: `update_topics` invoked with a metadata protocol version outside
0 and 1 leaves the Assignment Map exactly unchanged and raises nothing. -/
theorem C10_unknown_version_noop (api_version : Int) (metadata : MetadataResponse)
    (topics : AssignmentMap) (h0 : api_version ≠ 0) (h1 : api_version ≠ 1) :
    update_topics api_version metadata topics = .ok topics := by
  simp [update_topics, h0, h1]

/-- Witness for C10 at version 2, an arbitrary response and a non-empty
previous map. -/
theorem C10_witness :
    (2 : Int) ≠ 0 ∧ (2 : Int) ≠ 1 ∧
    update_topics 2 ⟨[⟨0, [116], .flag false, .parts [⟨0, 0, 9⟩]⟩]⟩ [([116], [(0, 1)])] =
      .ok [([116], [(0, 1)])] :=
  ⟨by decide, by decide,
   C10_unknown_version_noop 2 ⟨[⟨0, [116], .flag false, .parts [⟨0, 0, 9⟩]⟩]⟩
     [([116], [(0, 1)])] (by decide) (by decide)⟩

/-- Counterexample to C2 as stated: with the Assignment Map assigning
partition 0 of topic "t1" and partition 0 of topic "t2" both to leader node
5, one poll cycle sends TWO requests to node 5 (one per topic, each naming
a single topic), not exactly one request covering every topic it leads. -/
theorem C2_counterexample_requests_per_node :
    fetch_highwater_requests [([116, 49], [(0, 5)]), ([116, 50], [(0, 5)])] =
      [(5, ⟨-1, [([116, 49], [(0, -1, 1)])]⟩), (5, ⟨-1, [([116, 50], [(0, -1, 1)])]⟩)] ∧
    ¬ ((fetch_highwater_requests [([116, 49], [(0, 5)]), ([116, 50], [(0, 5)])]).filter
        (fun r => r.1 == 5)).length = 1 := by
  refine ⟨by decide, by decide⟩

/-- Counterexample to C3 as stated: a version-1 value buffer truncated in
its trailing 8-byte expire timestamp makes `parse_value` raise
`struct.error`; the raise is NOT confined to that record — it propagates
out of the consumer loop, so a following well-formed message is never
processed (the loop result is an error, not a store).  The second message
alone would have been processed fine. -/
theorem C3_counterexample_loop_aborts :
    parse_value ((encodeValue1 42 [109] 7 9).take ((encodeValue1 42 [109] 7 9).length - 3)) =
      .error .structError ∧
    consume emptyStore
      [⟨0, 0, some (encodeKey 1 [103] [116] 0),
        some ((encodeValue1 42 [109] 7 9).take ((encodeValue1 42 [109] 7 9).length - 3))⟩,
       ⟨0, 1, some (encodeKey 1 [103] [116] 0), some (encodeValue0 42 [] 0)⟩] =
      .error .structError ∧
    (consume emptyStore
      [⟨0, 1, some (encodeKey 1 [103] [116] 0), some (encodeValue0 42 [] 0)⟩]).isOk = true := by
  refine ⟨by decide, by decide, by decide⟩

/-- C6: decoding a key buffer produced by the reference encoder for schema
version 0 or 1 round-trips all four fields exactly. -/
theorem C6_key_roundtrip (version : Int) (group topic : PyStr) (partition : Int)
    (hv : version = 0 ∨ version = 1)
    (hg : group.length < 2 ^ 15) (ht : topic.length < 2 ^ 15)
    (hp1 : -(2 ^ 31) ≤ partition) (hp2 : partition < 2 ^ 31) :
    parse_key (encodeKey version group topic partition) =
      .ok (some ⟨version, group, topic, partition⟩) := by
  have hv1 : -(2 ^ (8 * 2 - 1) : Int) ≤ version := by
    rcases hv with rfl | rfl <;> norm_num
  have hv2 : version < 2 ^ (8 * 2 - 1) := by
    rcases hv with rfl | rfl <;> norm_num
  have hp1' : -(2 ^ (8 * 4 - 1) : Int) ≤ partition := by
    have he : 8 * 4 - 1 = 31 := by norm_num
    rw [he]; exact hp1
  have hp2' : partition < 2 ^ (8 * 4 - 1) := by
    have he : 8 * 4 - 1 = 31 := by norm_num
    rw [he]; exact hp2
  have hpad : encInt 4 partition = encInt 4 partition ++ [] := by simp
  simp only [parse_key, encodeKey, List.append_assoc]
  rw [show read_short = readBE 2 from rfl,
    readBE_encInt 2 version (encStr group ++ (encStr topic ++ encInt 4 partition))
      (by norm_num) hv1 hv2]
  simp only [ok_bind]
  rw [if_pos hv.symm]
  rw [read_string_encStr group (encStr topic ++ encInt 4 partition) hg]
  simp only [ok_bind]
  rw [read_string_encStr topic (encInt 4 partition) ht]
  simp only [ok_bind]
  rw [show read_int = readBE 4 from rfl, hpad,
    readBE_encInt 4 partition [] (by norm_num) hp1' hp2']
  simp only [ok_bind]

/-- Witness for C6 at version 1, group "g", topic "t", partition 0. -/
theorem C6_witness :
    ((1 : Int) = 0 ∨ (1 : Int) = 1) ∧
    ([103] : PyStr).length < 2 ^ 15 ∧ ([116] : PyStr).length < 2 ^ 15 ∧
    (-(2 ^ 31) : Int) ≤ 0 ∧ (0 : Int) < 2 ^ 31 ∧
    parse_key (encodeKey 1 [103] [116] 0) = .ok (some ⟨1, [103], [116], 0⟩) :=
  ⟨by decide, by decide, by decide, by decide, by decide,
   C6_key_roundtrip 1 [103] [116] 0 (by decide) (by decide) (by decide) (by decide) (by decide)⟩

/-- C3 (amended): a value buffer that declares schema version 1 but whose
trailing 8-byte expire-timestamp field is truncated (any tail shorter than
8 bytes) makes `parse_value` raise `struct.error` — never a
partially-populated record; and an error raised while processing one
message propagates out of the consumer loop, aborting all later messages
(it is not confined to that record). -/
theorem C3_truncated_value_fails (offset : Int) (metadata : PyStr) (ct : Int)
    (tail : List Nat)
    (ho1 : -(2 ^ 63) ≤ offset) (ho2 : offset < 2 ^ 63)
    (hc1 : -(2 ^ 63) ≤ ct) (hc2 : ct < 2 ^ 63)
    (hmd : metadata.length < 2 ^ 15) (htail : tail.length < 8) :
    parse_value (encInt 2 1 ++ encInt 8 offset ++ encStr metadata ++ encInt 8 ct ++ tail) =
      .error .structError ∧
    ∀ (store : Store) (m : Message) (rest : List Message) (e : PyErr),
      process_message store m = .error e → consume store (m :: rest) = .error e := by
  constructor
  · have ho1' : -(2 ^ (8 * 8 - 1) : Int) ≤ offset := by
      have he : 8 * 8 - 1 = 63 := by norm_num
      rw [he]; exact ho1
    have ho2' : offset < 2 ^ (8 * 8 - 1) := by
      have he : 8 * 8 - 1 = 63 := by norm_num
      rw [he]; exact ho2
    have hc1' : -(2 ^ (8 * 8 - 1) : Int) ≤ ct := by
      have he : 8 * 8 - 1 = 63 := by norm_num
      rw [he]; exact hc1
    have hc2' : ct < 2 ^ (8 * 8 - 1) := by
      have he : 8 * 8 - 1 = 63 := by norm_num
      rw [he]; exact hc2
    simp only [parse_value, List.append_assoc]
    rw [show read_short = readBE 2 from rfl,
      readBE_encInt 2 1 (encInt 8 offset ++ (encStr metadata ++ (encInt 8 ct ++ tail)))
        (by norm_num) (by norm_num) (by norm_num)]
    simp only [ok_bind]
    rw [if_neg (by norm_num)]
    simp only [if_true]
    rw [show read_long_long = readBE 8 from rfl,
      readBE_encInt 8 offset (encStr metadata ++ (encInt 8 ct ++ tail))
        (by norm_num) ho1' ho2']
    simp only [ok_bind]
    rw [read_string_encStr metadata (encInt 8 ct ++ tail) hmd]
    simp only [ok_bind]
    rw [readBE_encInt 8 ct tail (by norm_num) hc1' hc2']
    simp only [ok_bind]
    rw [show readBE 8 tail = .error .structError from by simp [readBE, if_pos htail]]
    rfl
  · intro store m rest e h
    simp only [consume, h]

/-- Witness for C3 (amended) at offset 42, metadata "m", commit timestamp 7
and a 3-byte truncated tail. -/
theorem C3_witness :
    (-(2 ^ 63) : Int) ≤ 42 ∧ (42 : Int) < 2 ^ 63 ∧
    (-(2 ^ 63) : Int) ≤ 7 ∧ (7 : Int) < 2 ^ 63 ∧
    ([109] : PyStr).length < 2 ^ 15 ∧ ([0, 0, 0] : List Nat).length < 8 ∧
    parse_value (encInt 2 1 ++ encInt 8 42 ++ encStr [109] ++ encInt 8 7 ++ [0, 0, 0]) =
      .error .structError :=
  ⟨by decide, by decide, by decide, by decide, by decide, by decide,
   (C3_truncated_value_fails 42 [109] 7 [0, 0, 0] (by decide) (by decide) (by decide)
     (by decide) (by decide) (by decide)).1⟩

theorem update_gauge_existing (store : Store) (name : String) (g : GaugeMetric)
    (ld : List (String × LabelVal)) (v : Int)
    (hg : alistLookup name store.gauges = some g) (hne : ld ≠ [])
    (hlen : ld.length = g.labelnames.length) :
    update_gauge store name ld v =
      .ok ⟨alistSet name ⟨g.labelnames, alistSet (ld.map Prod.snd) v g.series⟩ store.gauges,
           store.counters⟩ := by
  simp only [update_gauge, hg]
  rw [if_pos (by simpa using hne)]
  rw [if_pos (by simpa using hlen)]

theorem update_gauge_absent (store : Store) (name : String)
    (ld : List (String × LabelVal)) (v : Int)
    (hg : alistLookup name store.gauges = none) (hne : ld ≠ []) :
    update_gauge store name ld v =
      .ok ⟨alistSet name ⟨ld.map Prod.fst, [(ld.map Prod.snd, v)]⟩ store.gauges,
           store.counters⟩ := by
  simp only [update_gauge, hg]
  rw [if_pos (by simpa using hne)]
  rw [if_pos (by simp)]
  simp [alistSet]

theorem update_gauge_mismatch (store : Store) (name : String) (g : GaugeMetric)
    (ld : List (String × LabelVal)) (v : Int)
    (hg : alistLookup name store.gauges = some g) (hne : ld ≠ [])
    (hlen : ld.length ≠ g.labelnames.length) :
    update_gauge store name ld v = .error .valueError := by
  simp only [update_gauge, hg]
  rw [if_pos (by simpa using hne)]
  rw [if_neg (by simpa using hlen)]

theorem increment_counter_existing (store : Store) (name : String) (c : CounterMetric)
    (ld : List (String × LabelVal))
    (hc : alistLookup name store.counters = some c) (hne : ld ≠ [])
    (hlen : ld.length = c.labelnames.length) :
    increment_counter store name ld =
      .ok ⟨store.gauges,
           alistSet name
             ⟨c.labelnames,
              alistSet (ld.map Prod.snd) ((alistLookup (ld.map Prod.snd) c.series).getD 0 + 1)
                c.series⟩
             store.counters⟩ := by
  simp only [increment_counter, hc]
  rw [if_pos (by simpa using hne)]
  rw [if_pos (by simpa using hlen)]

theorem increment_counter_mismatch (store : Store) (name : String) (c : CounterMetric)
    (ld : List (String × LabelVal))
    (hc : alistLookup name store.counters = some c) (hne : ld ≠ [])
    (hlen : ld.length ≠ c.labelnames.length) :
    increment_counter store name ld = .error .valueError := by
  simp only [increment_counter, hc]
  rw [if_pos (by simpa using hne)]
  rw [if_neg (by simpa using hlen)]

/-- C5 (amended): the first call for a metric name fixes its label key set;
a later call with a label set of a different SIZE raises `ValueError`, but
a later call with an equal-size yet different label key set is accepted
silently: the gauge (or counter) keeps its originally registered label
names and the new label values are bound under those original keys. -/
theorem C5_label_contract (store : Store) (gname cname : String)
    (g : GaugeMetric) (c : CounterMetric) (ld : List (String × LabelVal)) (v : Int)
    (hg : alistLookup gname store.gauges = some g)
    (hc : alistLookup cname store.counters = some c)
    (hne : ld ≠ []) :
    (ld.length ≠ g.labelnames.length → update_gauge store gname ld v = .error .valueError) ∧
    (ld.length = g.labelnames.length → ∃ s2 g2,
      update_gauge store gname ld v = .ok s2 ∧
      alistLookup gname s2.gauges = some g2 ∧
      g2.labelnames = g.labelnames ∧
      alistLookup (ld.map Prod.snd) g2.series = some v) ∧
    (ld.length ≠ c.labelnames.length → increment_counter store cname ld = .error .valueError) ∧
    (ld.length = c.labelnames.length → ∃ s2 c2,
      increment_counter store cname ld = .ok s2 ∧
      alistLookup cname s2.counters = some c2 ∧
      c2.labelnames = c.labelnames ∧
      alistLookup (ld.map Prod.snd) c2.series =
        some ((alistLookup (ld.map Prod.snd) c.series).getD 0 + 1)) := by
  refine ⟨fun hlen => update_gauge_mismatch store gname g ld v hg hne hlen,
    fun hlen => ?_,
    fun hlen => increment_counter_mismatch store cname c ld hc hne hlen,
    fun hlen => ?_⟩
  · refine ⟨_, ⟨g.labelnames, alistSet (ld.map Prod.snd) v g.series⟩,
      update_gauge_existing store gname g ld v hg hne hlen, ?_, rfl, ?_⟩
    · exact alistLookup_set_self gname _ store.gauges
    · exact alistLookup_set_self (ld.map Prod.snd) v g.series
  · refine ⟨_, ⟨c.labelnames,
      alistSet (ld.map Prod.snd) ((alistLookup (ld.map Prod.snd) c.series).getD 0 + 1)
        c.series⟩,
      increment_counter_existing store cname c ld hc hne hlen, ?_, rfl, ?_⟩
    · exact alistLookup_set_self cname _ store.counters
    · exact alistLookup_set_self (ld.map Prod.snd) _ c.series

/-- Witness for C5 (amended): against a store where gauge "g" and counter
"c" were registered with the single label key (a), a later call with the
two-key label set (b, x) raises `ValueError` for both operations. -/
theorem C5_witness :
    update_gauge (Store.mk [("g", ⟨["a"], [([.vStr [49]], 5)]⟩)]
        [("c", ⟨["a"], [([.vStr [49]], 1)]⟩)]) "g"
        [("b", .vStr [50]), ("x", .vStr [51])] 3 = .error .valueError ∧
    increment_counter (Store.mk [("g", ⟨["a"], [([.vStr [49]], 5)]⟩)]
        [("c", ⟨["a"], [([.vStr [49]], 1)]⟩)]) "c"
        [("b", .vStr [50]), ("x", .vStr [51])] = .error .valueError := by
  have h := C5_label_contract
    (Store.mk [("g", ⟨["a"], [([.vStr [49]], 5)]⟩)] [("c", ⟨["a"], [([.vStr [49]], 1)]⟩)])
    "g" "c" ⟨["a"], [([.vStr [49]], 5)]⟩ ⟨["a"], [([.vStr [49]], 1)]⟩
    [("b", .vStr [50]), ("x", .vStr [51])] 3 (by decide) (by decide) (by decide)
  exact ⟨h.1 (by decide), h.2.2.1 (by decide)⟩

/-- Counterexample to C5 as stated: after gauge "g" is registered with label
key set (a), a second call with the different label key set (b) of the same
size is NOT rejected or asserted on: it succeeds silently and binds the new
label value "2" under the originally registered key "a", creating a series
the caller never asked for. -/
theorem C5_counterexample_silent_binding :
    (do
      let s1 ← update_gauge emptyStore "g" [("a", .vStr [49])] 5
      update_gauge s1 "g" [("b", .vStr [50])] 3 : Except PyErr Store) =
      .ok ⟨[("g", ⟨["a"], [([.vStr [49]], 5), ([.vStr [50]], 3)]⟩)], []⟩ := by
  decide

theorem appendPartition_cons_eq (t : PyStr) (ps : List Int)
    (rest : List (PyStr × List Int)) (p : Int) :
    appendPartition ((t, ps) :: rest) t p = (t, ps ++ [p]) :: rest := by
  simp [appendPartition]

theorem appendPartition_cons_ne (t2 t : PyStr) (ps : List Int)
    (rest : List (PyStr × List Int)) (p : Int) (h : t2 ≠ t) :
    appendPartition ((t2, ps) :: rest) t p = (t2, ps) :: appendPartition rest t p := by
  simp [appendPartition, h]

theorem addPartition_cons_eq (n : Int) (tm : List (PyStr × List Int))
    (rest : List (Int × List (PyStr × List Int))) (t : PyStr) (p : Int) :
    addPartition ((n, tm) :: rest) n t p = (n, appendPartition tm t p) :: rest := by
  simp [addPartition]

theorem addPartition_cons_ne (n l : Int) (tm : List (PyStr × List Int))
    (rest : List (Int × List (PyStr × List Int))) (t : PyStr) (p : Int) (h : n ≠ l) :
    addPartition ((n, tm) :: rest) l t p = (n, tm) :: addPartition rest l t p := by
  simp [addPartition, h]

theorem topicTriples_cons (n : Int) (tp : PyStr × List Int)
    (rest : List (PyStr × List Int)) :
    topicTriples n (tp :: rest) =
      (tp.2.map fun p => (n, tp.1, p)) ++ topicTriples n rest := by
  simp [topicTriples]

theorem topicTriples_appendPartition (n : Int) (tm : List (PyStr × List Int))
    (t : PyStr) (p : Int) :
    List.Perm (topicTriples n (appendPartition tm t p)) (topicTriples n tm ++ [(n, t, p)]) := by
  induction tm with
  | nil => simp [appendPartition, topicTriples]
  | cons tp rest ih =>
    obtain ⟨t2, ps⟩ := tp
    by_cases h : t2 = t
    · subst h
      rw [appendPartition_cons_eq, topicTriples_cons, topicTriples_cons]
      simp only [List.map_append, List.map_cons, List.map_nil, List.append_assoc]
      exact List.Perm.append_left _ List.perm_append_comm
    · rw [appendPartition_cons_ne t2 t ps rest p h, topicTriples_cons, topicTriples_cons]
      simp only [List.append_assoc]
      exact List.Perm.append_left _ ih

theorem nodeTriples_cons (nt : Int × List (PyStr × List Int))
    (rest : List (Int × List (PyStr × List Int))) :
    nodeTriples (nt :: rest) = topicTriples nt.1 nt.2 ++ nodeTriples rest := by
  simp [nodeTriples]

theorem nodeTriples_addPartition (nodes : List (Int × List (PyStr × List Int)))
    (l : Int) (t : PyStr) (p : Int) :
    List.Perm (nodeTriples (addPartition nodes l t p)) (nodeTriples nodes ++ [(l, t, p)]) := by
  induction nodes with
  | nil => simp [addPartition, nodeTriples, topicTriples]
  | cons nt rest ih =>
    obtain ⟨n, tm⟩ := nt
    by_cases h : n = l
    · subst h
      rw [addPartition_cons_eq, nodeTriples_cons, nodeTriples_cons]
      refine (List.Perm.append_right _ (topicTriples_appendPartition n tm t p)).trans ?_
      simp only [List.append_assoc]
      exact List.Perm.append_left _ List.perm_append_comm
    · rw [addPartition_cons_ne n l tm rest t p h, nodeTriples_cons, nodeTriples_cons]
      simp only [List.append_assoc]
      exact List.Perm.append_left _ ih

theorem nodeTriples_foldl_partitions (pm : List (Int × Int)) (t : PyStr)
    (nodes : List (Int × List (PyStr × List Int))) :
    List.Perm
      (nodeTriples (pm.foldl (fun ns pl => addPartition ns pl.2 t pl.1) nodes))
      (nodeTriples nodes ++ pm.map fun pl => (pl.2, t, pl.1)) := by
  induction pm generalizing nodes with
  | nil => simp
  | cons pl rest ih =>
    simp only [List.foldl_cons, List.map_cons]
    refine (ih (addPartition nodes pl.2 t pl.1)).trans ?_
    refine (List.Perm.append_right _ (nodeTriples_addPartition nodes pl.2 t pl.1)).trans ?_
    simp only [List.append_assoc, List.singleton_append]
    exact List.Perm.refl _

theorem nodeTriples_buildNodes_aux (tm : AssignmentMap)
    (nodes : List (Int × List (PyStr × List Int))) :
    List.Perm
      (nodeTriples (tm.foldl
        (fun ns t => t.2.foldl (fun ns pl => addPartition ns pl.2 t.1 pl.1) ns) nodes))
      (nodeTriples nodes ++ assignTriples tm) := by
  induction tm generalizing nodes with
  | nil => simp [assignTriples]
  | cons tp rest ih =>
    obtain ⟨t, pm⟩ := tp
    simp only [List.foldl_cons, assignTriples, List.flatMap_cons]
    refine (ih _).trans ?_
    refine (List.Perm.append_right _ (nodeTriples_foldl_partitions pm t nodes)).trans ?_
    simp only [List.append_assoc]
    exact List.Perm.refl _

/-- The grouped nodes dict covers exactly the (leader, topic, partition)
triples of the Assignment Map, as a permutation. -/
theorem nodeTriples_buildNodes (tm : AssignmentMap) :
    List.Perm (nodeTriples (buildNodes tm)) (assignTriples tm) := by
  have h := nodeTriples_buildNodes_aux tm []
  simp only [nodeTriples, List.flatMap_nil, List.nil_append] at h
  rw [buildNodes, nodeTriples]
  exact h

theorem reqTriples_append (a b : List (Int × OffsetReq)) :
    reqTriples (a ++ b) = reqTriples a ++ reqTriples b := by
  simp [reqTriples]

theorem reqTriples_map_topics (n : Int) (ntm : List (PyStr × List Int)) :
    reqTriples (ntm.map fun tps =>
        (n, OffsetReq.mk (-1) [(tps.1, tps.2.map fun p => (p, -1, 1))])) =
      topicTriples n ntm := by
  induction ntm with
  | nil => rfl
  | cons tps rest ih =>
    obtain ⟨t, ps⟩ := tps
    simp only [List.map_cons, reqTriples, List.flatMap_cons] at ih ⊢
    rw [ih]
    simp [List.map_map, Function.comp, topicTriples, List.flatMap_cons]

theorem reqTriples_emit (nodes : List (Int × List (PyStr × List Int))) :
    reqTriples (nodes.flatMap fun nt =>
        nt.2.map fun tps => (nt.1, OffsetReq.mk (-1) [(tps.1, tps.2.map fun p => (p, -1, 1))])) =
      nodeTriples nodes := by
  induction nodes with
  | nil => rfl
  | cons nt rest ih =>
    obtain ⟨n, ntm⟩ := nt
    rw [List.flatMap_cons, reqTriples_append, reqTriples_map_topics, ih, nodeTriples_cons]

theorem mem_keys_appendPartition (tm : List (PyStr × List Int)) (t : PyStr) (p : Int)
    (x : PyStr) (h : x ∈ (appendPartition tm t p).map Prod.fst) :
    x ∈ tm.map Prod.fst ∨ x = t := by
  induction tm with
  | nil => simpa [appendPartition] using h
  | cons tp rest ih =>
    obtain ⟨t2, ps⟩ := tp
    by_cases ht : t2 = t
    · subst ht
      rw [appendPartition_cons_eq] at h
      simp only [List.map_cons, List.mem_cons] at h ⊢
      exact Or.inl h
    · rw [appendPartition_cons_ne t2 t ps rest p ht] at h
      simp only [List.map_cons, List.mem_cons] at h ⊢
      rcases h with h | h
      · exact Or.inl (Or.inl h)
      · rcases ih h with h2 | h2
        · exact Or.inl (Or.inr h2)
        · exact Or.inr h2

theorem nodup_keys_appendPartition (tm : List (PyStr × List Int)) (t : PyStr) (p : Int)
    (h : (tm.map Prod.fst).Nodup) : ((appendPartition tm t p).map Prod.fst).Nodup := by
  induction tm with
  | nil => simp [appendPartition]
  | cons tp rest ih =>
    obtain ⟨t2, ps⟩ := tp
    simp only [List.map_cons, List.nodup_cons] at h
    by_cases ht : t2 = t
    · subst ht
      rw [appendPartition_cons_eq]
      simp only [List.map_cons, List.nodup_cons]
      exact ⟨h.1, h.2⟩
    · rw [appendPartition_cons_ne t2 t ps rest p ht]
      simp only [List.map_cons, List.nodup_cons]
      refine ⟨fun hmem => ?_, ih h.2⟩
      rcases mem_keys_appendPartition rest t p t2 hmem with h2 | h2
      · exact h.1 h2
      · exact ht h2

theorem mem_keys_addPartition (nodes : List (Int × List (PyStr × List Int)))
    (l : Int) (t : PyStr) (p : Int) (x : Int)
    (h : x ∈ (addPartition nodes l t p).map Prod.fst) :
    x ∈ nodes.map Prod.fst ∨ x = l := by
  induction nodes with
  | nil => simpa [addPartition] using h
  | cons nt rest ih =>
    obtain ⟨n, tm⟩ := nt
    by_cases hn : n = l
    · subst hn
      rw [addPartition_cons_eq] at h
      simp only [List.map_cons, List.mem_cons] at h ⊢
      exact Or.inl h
    · rw [addPartition_cons_ne n l tm rest t p hn] at h
      simp only [List.map_cons, List.mem_cons] at h ⊢
      rcases h with h | h
      · exact Or.inl (Or.inl h)
      · rcases ih h with h2 | h2
        · exact Or.inl (Or.inr h2)
        · exact Or.inr h2

theorem mem_addPartition_inner (nodes : List (Int × List (PyStr × List Int)))
    (l : Int) (t : PyStr) (p : Int) (nt : Int × List (PyStr × List Int))
    (h : nt ∈ addPartition nodes l t p)
    (hwf : ∀ x ∈ nodes, (x.2.map Prod.fst).Nodup) : (nt.2.map Prod.fst).Nodup := by
  induction nodes with
  | nil =>
    simp only [addPartition, List.mem_singleton] at h
    subst h
    simp
  | cons nt2 rest ih =>
    obtain ⟨n, tm⟩ := nt2
    by_cases hn : n = l
    · subst hn
      rw [addPartition_cons_eq] at h
      simp only [List.mem_cons] at h
      rcases h with h | h
      · subst h
        exact nodup_keys_appendPartition tm t p (hwf (n, tm) (List.mem_cons_self _ _))
      · exact hwf nt (List.mem_cons_of_mem _ h)
    · rw [addPartition_cons_ne n l tm rest t p hn] at h
      simp only [List.mem_cons] at h
      rcases h with h | h
      · subst h
        exact hwf (n, tm) (List.mem_cons_self _ _)
      · exact ih h (fun x hx => hwf x (List.mem_cons_of_mem _ hx))

theorem addPartition_wf (nodes : List (Int × List (PyStr × List Int)))
    (l : Int) (t : PyStr) (p : Int) (h : NodesWF nodes) :
    NodesWF (addPartition nodes l t p) := by
  obtain ⟨hkeys, hinner⟩ := h
  refine ⟨?_, fun nt hnt => mem_addPartition_inner nodes l t p nt hnt hinner⟩
  clear hinner
  induction nodes with
  | nil => simp [addPartition]
  | cons nt rest ih =>
    obtain ⟨n, tm⟩ := nt
    simp only [List.map_cons, List.nodup_cons] at hkeys
    by_cases hn : n = l
    · subst hn
      rw [addPartition_cons_eq]
      simp only [List.map_cons, List.nodup_cons]
      exact ⟨hkeys.1, hkeys.2⟩
    · rw [addPartition_cons_ne n l tm rest t p hn]
      simp only [List.map_cons, List.nodup_cons]
      refine ⟨fun hmem => ?_, ih hkeys.2⟩
      rcases mem_keys_addPartition rest l t p n hmem with h2 | h2
      · exact hkeys.1 h2
      · exact hn h2

theorem foldl_partitions_wf (pm : List (Int × Int)) (t : PyStr)
    (nodes : List (Int × List (PyStr × List Int))) (h : NodesWF nodes) :
    NodesWF (pm.foldl (fun ns pl => addPartition ns pl.2 t pl.1) nodes) := by
  induction pm generalizing nodes with
  | nil => exact h
  | cons pl rest ih =>
    exact ih (addPartition nodes pl.2 t pl.1) (addPartition_wf nodes pl.2 t pl.1 h)

/-- The grouped nodes dict has distinct node keys and, per node, distinct
topic keys. -/
theorem buildNodes_wf (tm : AssignmentMap) : NodesWF (buildNodes tm) := by
  rw [buildNodes]
  have haux : ∀ (l : AssignmentMap) (nodes : List (Int × List (PyStr × List Int))),
      NodesWF nodes →
      NodesWF (l.foldl
        (fun ns t => t.2.foldl (fun ns pl => addPartition ns pl.2 t.1 pl.1) ns) nodes) := by
    intro l
    induction l with
    | nil => exact fun nodes h => h
    | cons tp rest ih =>
      intro nodes h
      exact ih _ (foldl_partitions_wf tp.2 tp.1 nodes h)
  exact haux tm [] ⟨by simp, by simp⟩

theorem reqKey_fst_mem (nodes : List (Int × List (PyStr × List Int)))
    (a : Int × List PyStr)
    (h : a ∈ ((nodes.flatMap fun nt =>
        nt.2.map fun tps =>
          (nt.1, OffsetReq.mk (-1) [(tps.1, tps.2.map fun p => (p, -1, 1))])).map reqKey)) :
    a.1 ∈ nodes.map Prod.fst := by
  simp only [List.mem_map, List.mem_flatMap] at h
  obtain ⟨r, ⟨nt, hnt, ⟨tps, htps, hr2⟩⟩, ha⟩ := h
  subst hr2
  subst ha
  simp only [reqKey]
  exact List.mem_map_of_mem Prod.fst hnt

theorem requests_keys_nodup (nodes : List (Int × List (PyStr × List Int)))
    (h : NodesWF nodes) :
    (((nodes.flatMap fun nt =>
        nt.2.map fun tps =>
          (nt.1, OffsetReq.mk (-1) [(tps.1, tps.2.map fun p => (p, -1, 1))])).map reqKey)).Nodup := by
  induction nodes with
  | nil => simp
  | cons nt rest ih =>
    obtain ⟨n, ntm⟩ := nt
    obtain ⟨hkeys, hinner⟩ := h
    simp only [List.map_cons, List.nodup_cons] at hkeys
    rw [List.flatMap_cons, List.map_append, List.nodup_append]
    refine ⟨?_, ih ⟨hkeys.2, fun x hx => hinner x (List.mem_cons_of_mem _ hx)⟩, ?_⟩
    · have hform : ((ntm.map fun tps =>
          ((n : Int), OffsetReq.mk (-1) [(tps.1, tps.2.map fun p => (p, -1, 1))])).map reqKey) =
          (ntm.map Prod.fst).map fun t => (n, [t]) := by
        simp [List.map_map, Function.comp, reqKey]
      rw [hform]
      refine List.Nodup.map ?_ (hinner (n, ntm) (List.mem_cons_self _ _))
      intro a b hab
      simpa using hab
    · intro a ha hb
      have ha1 : a.1 = n := by
        simp only [List.mem_map] at ha
        obtain ⟨r, ⟨tps, htps, hr2⟩, ha2⟩ := ha
        subst hr2
        subst ha2
        rfl
      have hb1 : a.1 ∈ rest.map Prod.fst := reqKey_fst_mem rest a hb
      rw [ha1] at hb1
      exact hkeys.1 hb1

/-- C2 (amended): for every non-empty Assignment Map, one highwater poll
cycle emits latest-offset requests with replica id -1, each naming exactly
ONE topic and requesting strategy LATEST (-1) with max_offsets 1 for each
partition; the (node, topic, partition) triples covered by the requests are
exactly (a permutation of) the (leader, topic, partition) triples of the
Assignment Map; and no two requests share a (destination node, named
topics) key — so the cycle issues exactly one request per (leader node,
topic) pair, not one per leader node. -/
theorem C2_one_request_per_node_topic (tm : AssignmentMap) (hne : tm ≠ []) :
    ((fetch_highwater_requests tm).all fun r =>
      r.2.replica_id == -1 && r.2.topics.length == 1 &&
        r.2.topics.all fun te => te.2.all fun pe => pe.2.1 == -1 && pe.2.2 == 1) = true ∧
    List.Perm (reqTriples (fetch_highwater_requests tm)) (assignTriples tm) ∧
    ((fetch_highwater_requests tm).map reqKey).Nodup := by
  have hreq : fetch_highwater_requests tm =
      (buildNodes tm).flatMap fun nt =>
        nt.2.map fun tps =>
          (nt.1, OffsetReq.mk (-1) [(tps.1, tps.2.map fun p => (p, -1, 1))]) := by
    rw [fetch_highwater_requests, if_neg hne]
  refine ⟨?_, ?_, ?_⟩
  · rw [hreq, List.all_eq_true]
    intro r hr
    simp only [List.mem_flatMap, List.mem_map] at hr
    obtain ⟨nt, hnt, tps, htps, hr2⟩ := hr
    subst hr2
    simp [List.all_eq_true, List.mem_map]
  · rw [hreq, reqTriples_emit]
    exact nodeTriples_buildNodes tm
  · rw [hreq]
    exact requests_keys_nodup (buildNodes tm) (buildNodes_wf tm)

/-- Witness for C2 (amended) at the two-topic single-leader Assignment Map
used by the counterexample. -/
theorem C2_witness :
    ([([116, 49], [(0, 5)]), ([116, 50], [(0, 5)])] : AssignmentMap) ≠ [] ∧
    (((fetch_highwater_requests [([116, 49], [(0, 5)]), ([116, 50], [(0, 5)])]).all fun r =>
      r.2.replica_id == -1 && r.2.topics.length == 1 &&
        r.2.topics.all fun te => te.2.all fun pe => pe.2.1 == -1 && pe.2.2 == 1) = true ∧
    List.Perm
      (reqTriples (fetch_highwater_requests [([116, 49], [(0, 5)]), ([116, 50], [(0, 5)])]))
      (assignTriples [([116, 49], [(0, 5)]), ([116, 50], [(0, 5)])]) ∧
    ((fetch_highwater_requests [([116, 49], [(0, 5)]), ([116, 50], [(0, 5)])]).map
      reqKey).Nodup) :=
  ⟨by decide, C2_one_request_per_node_topic _ (by decide)⟩

/-- C8: regardless of which cycles fail, the k-th topology refresh fires at
exactly t0 + 30 k (a failed cycle still schedules the next one 30 units
after its own fire time, from the finally block), and a failing cycle logs
the error and swallows it (log action present exactly when the request
raises, never an unhandled raise). -/
theorem C8_refresh_always_rescheduled :
    (∀ (envs : Nat → ClientEnv) (t0 : Int) (k : Nat),
      topology_fire_time envs t0 k = some (t0 + 30 * k)) ∧
    (∀ (env : ClientEnv) (t : Int),
      SchedAction.schedule (t + 30) ∈ fetch_topics_actions env t ∧
      (SchedAction.logError ∈ fetch_topics_actions env t ↔ env.send_raises = true)) := by
  have hact : ∀ (env : ClientEnv) (t : Int),
      scheduledTimes (fetch_topics_actions env t) = [t + 30] := by
    intro env t
    cases h : env.send_raises <;>
      simp [fetch_topics_actions, scheduledTimes, h, List.filterMap]
  constructor
  · intro envs t0 k
    induction k with
    | zero => simp [topology_fire_time]
    | succ k ih =>
      rw [topology_fire_time, ih]
      simp only [hact, List.head?, Option.some.injEq]
      push_cast
      ring
  · intro env t
    constructor
    · cases h : env.send_raises <;> simp [fetch_topics_actions, h]
    · cases h : env.send_raises <;> simp [fetch_topics_actions, h]

theorem hwLookup_hwSet (hw : HWTable) (t : PyStr) (p o : Int) :
    hwLookup (hwSet hw t p o) t p = some o := by
  simp [hwLookup, hwSet, alistLookup_set_self]

theorem update_highwater_parts_scrub (parts : List OffsetPartition) (hw : HWTable)
    (store : Store) (topic : PyStr) :
    update_highwater_parts hw store topic (parts.map fun p => ⟨p.partition, 0, p.offsets⟩) =
      update_highwater_parts hw store topic parts := by
  induction parts generalizing hw store with
  | nil => rfl
  | cons p rest ih =>
    obtain ⟨pp, pec, poffs⟩ := p
    cases poffs with
    | nil => rfl
    | cons o os =>
      simp only [List.map_cons, update_highwater_parts]
      cases hupd : update_gauge store "kafka_consumer_group_highwater"
          [("topic", .vStr topic), ("partition", .vInt pp)] o with
      | error e => rfl
      | ok s2 => exact ih (hwSet hw topic pp o) s2

theorem update_highwater_topics_scrub (tps : List (PyStr × List OffsetPartition))
    (hw : HWTable) (store : Store) :
    update_highwater_topics hw store
        (tps.map fun tp => (tp.1, tp.2.map fun p => ⟨p.partition, 0, p.offsets⟩)) =
      update_highwater_topics hw store tps := by
  induction tps generalizing hw store with
  | nil => rfl
  | cons tp rest ih =>
    obtain ⟨topic, parts⟩ := tp
    simp only [List.map_cons, update_highwater_topics]
    rw [update_highwater_parts_scrub]
    cases hparts : update_highwater_parts
        (if (alistLookup topic hw).isNone then hw ++ [(topic, [])] else hw) store topic parts with
    | error e => rfl
    | ok pr => exact ih pr.1 pr.2

/-- C9: `update_highwater` ignores the per-partition error codes entirely
(scrubbing them all to 0 cannot change the result), and for a response
triple carrying at least one offset it unconditionally overwrites the
Highwater Table entry with the first returned offset and publishes the
highwater gauge for that (topic, partition). -/
theorem C9_highwater_ignores_error_codes :
    (∀ (hw : HWTable) (store : Store) (resp : OffsetResponse),
      update_highwater hw store resp = update_highwater hw store (scrubErrorCodes resp)) ∧
    (∀ (hw : HWTable) (store : Store) (t : PyStr) (p ec o : Int) (os : List Int),
      gaugeArityOk store "kafka_consumer_group_highwater" 2 = true →
      (update_highwater hw store ⟨[(t, [⟨p, ec, o :: os⟩])]⟩).isOk = true ∧
      lookupResultHW (update_highwater hw store ⟨[(t, [⟨p, ec, o :: os⟩])]⟩) t p = some o ∧
      lookupResultGauge (update_highwater hw store ⟨[(t, [⟨p, ec, o :: os⟩])]⟩)
        "kafka_consumer_group_highwater" [.vStr t, .vInt p] = some o) := by
  constructor
  · intro hw store resp
    exact (update_highwater_topics_scrub resp.topics hw store).symm
  · intro hw store t p ec o os har
    have hne : ([("topic", LabelVal.vStr t), ("partition", LabelVal.vInt p)] :
        List (String × LabelVal)) ≠ [] := by simp
    cases hlk : alistLookup "kafka_consumer_group_highwater" store.gauges with
    | none =>
      have hupd := update_gauge_absent store "kafka_consumer_group_highwater"
        [("topic", .vStr t), ("partition", .vInt p)] o hlk hne
      simp only [update_highwater, update_highwater_topics, update_highwater_parts, hupd]
      refine ⟨rfl, ?_, ?_⟩
      · simp only [lookupResultHW, hwLookup_hwSet]
      · simp only [lookupResultGauge, gaugeValue, List.map_cons, List.map_nil,
          alistLookup_set_self]
        simp [alistLookup]
    | some g =>
      have hglen : g.labelnames.length = 2 := by
        have hx := har
        rw [gaugeArityOk, hlk] at hx
        simpa using hx
      have hupd := update_gauge_existing store "kafka_consumer_group_highwater" g
        [("topic", .vStr t), ("partition", .vInt p)] o hlk hne (by simp [hglen])
      simp only [update_highwater, update_highwater_topics, update_highwater_parts, hupd]
      refine ⟨rfl, ?_, ?_⟩
      · simp only [lookupResultHW, hwLookup_hwSet]
      · simp only [lookupResultGauge, gaugeValue, List.map_cons, List.map_nil,
          alistLookup_set_self]

/-- Witness for C9: empty table and store, a response for topic "t"
partition 0 with error code 3 and offsets [100]. -/
theorem C9_witness :
    gaugeArityOk emptyStore "kafka_consumer_group_highwater" 2 = true ∧
    update_highwater [] emptyStore ⟨[([116], [⟨0, 3, [100]⟩])]⟩ =
      update_highwater [] emptyStore
        (scrubErrorCodes ⟨[([116], [⟨0, 3, [100]⟩])]⟩) ∧
    (update_highwater [] emptyStore ⟨[([116], [⟨0, 3, [100]⟩])]⟩).isOk = true ∧
    lookupResultHW (update_highwater [] emptyStore ⟨[([116], [⟨0, 3, [100]⟩])]⟩) [116] 0 =
      some 100 ∧
    lookupResultGauge (update_highwater [] emptyStore ⟨[([116], [⟨0, 3, [100]⟩])]⟩)
      "kafka_consumer_group_highwater" [.vStr [116], .vInt 0] = some 100 := by
  have h := C9_highwater_ignores_error_codes
  have hb := h.2 [] emptyStore [116] 0 3 100 [] (by decide)
  exact ⟨by decide, h.1 [] emptyStore ⟨[([116], [⟨0, 3, [100]⟩])]⟩, hb.1, hb.2.1, hb.2.2⟩


end Exporter
